import Mathlib

/-!
Verification of the `noter` note-taking helper (src/src/main.rs).

Strings are embedded as `List Char` (a Rust `String` is a sequence of
Unicode scalar values, like Lean's `Char`).  The filesystem is embedded
as explicit data: the notes root is a `List FsEntry` in directory-listing
order, and a course directory's children are an association list from
file name to file content.  Regular-expression matching from the source
is embedded by executable matchers specialised to the two concrete
patterns the program builds, following the semantics of Rust's `regex`
crate (`^` anchors at the start of the haystack, `\s` is Unicode
white space, `.` matches any character except `'\n'`).
-/

namespace Noter

/-- Embeds `InvalidChar::is_invalid_for_path` (src/src/main.rs:17-22):
the reserved character set `{ " < > | NUL : * ? \ / }`. -/
def is_invalid_for_path (c : Char) : Bool :=
  c == '\"' || c == '<' || c == '>' || c == '|' || c == '\x00' || c == ':' ||
  c == '*' || c == '?' || c == '\\' || c == '/'

/-- Embeds `sanitize_file_name` (src/src/main.rs:25-27):
`path.replace(|c| c.is_invalid_for_path(), "_").trim_end_matches('.')`.
`replace` with a char-predicate pattern and a one-character replacement
maps each offending character to `'_'`; `trim_end_matches('.')` removes
every trailing `'.'`. -/
def sanitize_file_name (path : List Char) : List Char :=
  (((path.map (fun c => if is_invalid_for_path c then '_' else c)).reverse.dropWhile
      (fun c => c == '.')).reverse)

/-- Head-of-list test for `[0-9]`: does the remaining input start with an
ASCII digit? (`Char.isDigit` is exactly the ASCII range `0`-`9`,
matching the regex class `[0-9]`.) -/
def headIsDigit : List Char → Bool
  | [] => false
  | c :: _ => c.isDigit

/-- Anchored matcher for the pattern `[A-Z]+[0-9]+` of
`validate_course` (src/src/main.rs:145): some prefix of the input is one
or more ASCII uppercase letters followed by one or more ASCII digits.
(`Char.isUpper` is exactly the ASCII range `A`-`Z`, matching `[A-Z]`;
only the first digit decides an anchored-prefix match.) -/
def matchUD : List Char → Bool
  | [] => false
  | a :: rest => a.isUpper && (headIsDigit rest || matchUD rest)

/-- Unanchored search for `[A-Z]+[0-9]+`: `Regex::is_match` succeeds when
the anchored matcher succeeds at some position of the input. -/
def searchUD : List Char → Bool
  | [] => false
  | a :: rest => matchUD (a :: rest) || searchUD rest

/-- Embeds `validate_course` (src/src/main.rs:144-147):
`Regex::new(r"[A-Z]+[0-9]+").map(|re| re.is_match(code)).unwrap_or(false)`.
The pattern is a constant that always compiles, so the `unwrap_or(false)`
fallback is never taken and the result is the containment match. -/
def validate_course (code : List Char) : Bool :=
  searchUD code

/-- The `\s` character class of Rust's `regex` crate with its default
Unicode semantics: the Unicode `White_Space` property. -/
def isRegexSpace (c : Char) : Bool :=
  c == ' ' || c == '\t' || c == '\n' || c == '\x0b' || c == '\x0c' || c == '\r' ||
  c.toNat == 0x85 || c.toNat == 0xa0 || c.toNat == 0x1680 ||
  (0x2000 ≤ c.toNat && c.toNat ≤ 0x200a) ||
  c.toNat == 0x2028 || c.toNat == 0x2029 || c.toNat == 0x202f ||
  c.toNat == 0x205f || c.toNat == 0x3000

/-- Matcher for the resolver's pattern `^({course})\s.+`
(src/src/main.rs:66) applied to a candidate name, for a `course` made of
characters that are literal in a regex (the reachable calls interpolate a
course code).  With `^` anchoring at the start of the haystack, a name
matches when it starts with `course`, continues with exactly one `\s`
character, and then has at least one further character matched by `.`,
which is any character other than `'\n'`. -/
def coursePatternMatch : List Char → List Char → Bool
  | [], w :: c :: _ => isRegexSpace w && !(c == '\n')
  | [], _ => false
  | _ :: _, [] => false
  | a :: as, b :: bs => a == b && coursePatternMatch as bs

/-- A direct child of the notes root as the resolver sees it: its base
name, whether `fs::metadata` reports a directory, and (for course
directories) its own children as an association list from note-file name
to note-file content. -/
structure FsEntry where
  name : List Char
  isDir : Bool
  files : List (List Char × List Char)
deriving DecidableEq

/-- Embeds `find_course_path` (src/src/main.rs:65-84): walk the
directory listing in order, skip entries that are not directories
(`continue`), and return the first whose base name matches the pattern;
`None` models the `CourseNotFoundError` result.  (Line 67's
`re.replace_all(course, "$course")` discards its result and has no
effect.) -/
def find_course_path : List FsEntry → List Char → Option FsEntry
  | [], _ => none
  | e :: rest, course =>
    if !e.isDir then find_course_path rest course
    else if coursePatternMatch course e.name then some e
    else find_course_path rest course

/-- Embeds `NoterError` (src/src/main.rs:29-41).  The payloads of the
wrapped foreign errors are irrelevant here; the two course-code variants
carry the code as in the source. -/
inductive NoterError where
  | ioError : NoterError
  | customError : NoterError
  | regexError : NoterError
  | courseNotFoundError : List Char → NoterError
  | badCourseCodeError : List Char → NoterError
deriving DecidableEq

/-- Outcome of a creation operation, as reported by the status lines of
`make_new_note` / `make_new_folder`. -/
inductive Outcome where
  | created : Outcome
  | alreadyExisted : Outcome
deriving DecidableEq

/-- Lookup in a course directory's children: the content of the file
with the given name, `none` when no such file exists (`path.exists()`
is `(fileLookup dir name).isSome`). -/
def fileLookup : List (List Char × List Char) → List Char → Option (List Char)
  | [], _ => none
  | f :: rest, name => if f.1 == name then some f.2 else fileLookup rest name

/-- The note file name computed by `make_new_note` (src/src/main.rs:172-174):
`title.map_or(format!("{}.md", date), |t| format!("{}-{}.md", date, sanitize_file_name(t)))`. -/
def noteFileName (date : List Char) (title : Option (List Char)) : List Char :=
  match title with
  | none => date ++ ['.', 'm', 'd']
  | some t => date ++ '-' :: (sanitize_file_name t ++ ['.', 'm', 'd'])

/-- Embeds `make_new_note` (src/src/main.rs:165-184) on the children of
the resolved course directory.  The date string is passed in explicitly
(the source computes it once per invocation as `Local::today().format("%F")`,
the ISO `YYYY-MM-DD` form).  If the file already exists the directory is
returned unchanged with `alreadyExisted`; otherwise `fs::File::create`
adds an empty file and the outcome is `created`. -/
def make_new_note (dir : List (List Char × List Char)) (date : List Char)
    (title : Option (List Char)) : List (List Char × List Char) × Outcome :=
  let file := noteFileName date title
  match fileLookup dir file with
  | some _ => (dir, Outcome.alreadyExisted)
  | none => ((file, []) :: dir, Outcome.created)

/-- The folder name composed by `make_new_folder` (src/src/main.rs:154):
`format!("{} {}", course_code, sanitize_file_name(title))`. -/
def folderName (course_code title : List Char) : List Char :=
  course_code ++ ' ' :: sanitize_file_name title

/-- Does any entry of the root listing carry this exact base name?
This is `path.exists()` for the composed target path: it is true for an
entry of any kind, directory or not. -/
def hasEntry (root : List FsEntry) (name : List Char) : Bool :=
  root.any (fun e => e.name == name)

/-- Embeds `make_new_folder` (src/src/main.rs:149-163): compose the
target name, report `alreadyExisted` without mutation when an entry with
that exact name exists, otherwise `fs::create_dir` adds one new empty
directory entry and the outcome is `created`. -/
def make_new_folder (root : List FsEntry) (course_code title : List Char) :
    List FsEntry × Outcome :=
  let name := folderName course_code title
  if hasEntry root name then (root, Outcome.alreadyExisted)
  else (FsEntry.mk name true [] :: root, Outcome.created)

/-- Embeds `str::to_uppercase` as applied to course codes on
src/src/main.rs:117 and 129, restricted to its ASCII action
(`Char.toUpper`); the claims only exercise ASCII codes. -/
def toUppercase (s : List Char) : List Char :=
  s.map Char.toUpper

/-- Replace the children of the first root entry that the resolver's
scan selects (directory, name matches) with the updated children list:
the filesystem effect of writing into the resolved course directory. -/
def updateFirstCourse (course : List Char) (files : List (List Char × List Char)) :
    List FsEntry → List FsEntry
  | [] => []
  | e :: rest =>
    if !e.isDir then e :: updateFirstCourse course files rest
    else if coursePatternMatch course e.name then FsEntry.mk e.name e.isDir files :: rest
    else e :: updateFirstCourse course files rest

/-- Embeds the `("new", _)` arm of `run` (src/src/main.rs:115-126):
uppercase the course code, fail with `BadCourseCodeError` when
validation rejects it, resolve the course directory (failing with
`CourseNotFoundError` when no entry matches), then create the note
inside it.  The pair returns the resulting root listing next to the
`Result`; error paths leave the root untouched. -/
def run_new (root : List FsEntry) (course : List Char) (title : Option (List Char))
    (date : List Char) : List FsEntry × Except NoterError Outcome :=
  let code := toUppercase course
  if !validate_course code then
    (root, Except.error (NoterError.badCourseCodeError code))
  else
    match find_course_path root code with
    | none => (root, Except.error (NoterError.courseNotFoundError code))
    | some e =>
      let r := make_new_note e.files date title
      (updateFirstCourse code r.1 root, Except.ok r.2)

/-- Embeds the `("course", _)` arm of `run` (src/src/main.rs:127-138):
uppercase the code, fail with `BadCourseCodeError` when validation
rejects it, otherwise create the course folder under the root. -/
def run_course (root : List FsEntry) (code title : List Char) :
    List FsEntry × Except NoterError Outcome :=
  let cc := toUppercase code
  if !validate_course cc then
    (root, Except.error (NoterError.badCourseCodeError cc))
  else
    let r := make_new_folder root cc title
    (r.1, Except.ok r.2)

/-- The metacharacters of the `regex` crate's syntax (the characters its
`regex-syntax` escapes; interpolating any of them into a pattern makes
it non-literal or malformed). -/
def is_meta_character (c : Char) : Bool :=
  c == '\\' || c == '.' || c == '+' || c == '*' || c == '?' || c == '(' || c == ')' ||
  c == '|' || c == '[' || c == ']' || c == '{' || c == '}' || c == '^' || c == '$' ||
  c == '#' || c == '&' || c == '-' || c == '~'

/-! ### Sanitizer lemmas -/

theorem dropWhile_head?_false (p : Char → Bool) (l : List Char) (c : Char)
    (h : (List.dropWhile p l).head? = some c) : p c = false := by
  induction l with
  | nil => simp [List.dropWhile] at h
  | cons a t ih =>
    rw [List.dropWhile_cons] at h
    by_cases hp : p a = true
    · rw [if_pos hp] at h
      exact ih h
    · rw [if_neg hp] at h
      simp only [List.head?_cons, Option.some.injEq] at h
      subst h
      exact Bool.eq_false_iff.mpr hp

theorem sanitize_mem_not_invalid (s : List Char) :
    ∀ c ∈ sanitize_file_name s, is_invalid_for_path c = false := by
  intro c hc
  unfold sanitize_file_name at hc
  rw [List.mem_reverse] at hc
  have hc2 := List.Sublist.mem hc (List.dropWhile_sublist _)
  rw [List.mem_reverse, List.mem_map] at hc2
  obtain ⟨a, _, ha⟩ := hc2
  by_cases h : is_invalid_for_path a = true
  · rw [if_pos h] at ha
    rw [← ha]
    decide
  · rw [if_neg h] at ha
    rw [← ha]
    exact Bool.eq_false_iff.mpr h

theorem sanitize_getLast_not_dot (s : List Char) (c : Char)
    (h : (sanitize_file_name s).getLast? = some c) : ¬ c = '.' := by
  intro hdot
  unfold sanitize_file_name at h
  rw [List.getLast?_reverse] at h
  have := dropWhile_head?_false _ _ _ h
  subst hdot
  exact absurd this (by decide)

theorem map_replace_invalid_id (s : List Char)
    (h : ∀ c ∈ s, is_invalid_for_path c = false) :
    List.map (fun c => if is_invalid_for_path c then '_' else c) s = s := by
  induction s with
  | nil => rfl
  | cons a t ih =>
    simp only [List.map_cons, List.cons.injEq]
    constructor
    · rw [h a (List.mem_cons_self a t)]
      rfl
    · exact ih (fun c hc => h c (List.mem_cons_of_mem a hc))

/-- Claim C3: `sanitize_file_name` is a pure total function; for every
input, its output contains no character of the reserved set
`{ " < > | NUL : * ? \ / }` (each such occurrence having been replaced
by `'_'`) and its last character, when it has one, is not a period. -/
theorem sanitize_file_name_safe :
    ∀ s : List Char,
      (∀ c ∈ sanitize_file_name s, is_invalid_for_path c = false) ∧
      (sanitize_file_name s).getLast? ≠ some '.' := by
  intro s
  refine ⟨sanitize_mem_not_invalid s, fun h => ?_⟩
  exact sanitize_getLast_not_dot s '.' h rfl

/-- Claim C7: on a string that contains no reserved character and does
not end with a period, `sanitize_file_name` is the identity. -/
theorem sanitize_file_name_identity (s : List Char)
    (h1 : ∀ c ∈ s, is_invalid_for_path c = false)
    (h2 : s.getLast? ≠ some '.') :
    sanitize_file_name s = s := by
  unfold sanitize_file_name
  rw [map_replace_invalid_id s h1]
  have hdrop : List.dropWhile (fun c => c == '.') s.reverse = s.reverse := by
    cases hr : s.reverse with
    | nil => rfl
    | cons a t =>
      rw [List.dropWhile_cons]
      have hlast : s.getLast? = some a := by
        rw [List.getLast?_eq_head?_reverse, hr]
        rfl
      have ha : (a == '.') = false := by
        rw [beq_eq_false_iff_ne]
        intro e
        subst e
        exact h2 hlast
      rw [ha]
      simp
  rw [hdrop, List.reverse_reverse]

/-- Witness for C7: a concrete already-safe string is fixed by the
sanitizer. -/
theorem sanitize_file_name_identity_witness :
    (∀ c ∈ ['N', 'o', 't', 'e', 's'], is_invalid_for_path c = false) ∧
    (['N', 'o', 't', 'e', 's'] : List Char).getLast? ≠ some '.' ∧
    sanitize_file_name ['N', 'o', 't', 'e', 's'] = ['N', 'o', 't', 'e', 's'] :=
  ⟨by decide, by decide, sanitize_file_name_identity _ (by decide) (by decide)⟩

/-! ### Validator lemmas -/

/-- The claim's reading of the pattern `[A-Z]+[0-9]+` under containment
semantics: somewhere in the string, a run of one or more uppercase
letters is immediately followed by a run of one or more digits. -/
def hasUpperDigitRun (s : List Char) : Prop :=
  ∃ pre u d post, s = pre ++ u ++ d ++ post ∧ u ≠ [] ∧ d ≠ [] ∧
    (∀ c ∈ u, c.isUpper = true) ∧ (∀ c ∈ d, c.isDigit = true)

theorem matchUD_pair (s : List Char) (h : matchUD s = true) :
    ∃ pre a b post, s = pre ++ a :: b :: post ∧ a.isUpper = true ∧ b.isDigit = true := by
  induction s with
  | nil => exact absurd h (by decide)
  | cons a rest ih =>
    rw [matchUD, Bool.and_eq_true, Bool.or_eq_true] at h
    obtain ⟨ha, hor | hor⟩ := h
    · match rest, hor with
      | b :: t, hb =>
        exact ⟨[], a, b, t, rfl, ha, hb⟩
    · obtain ⟨pre, a2, b, post, hrest, ha2, hb⟩ := ih hor
      exact ⟨a :: pre, a2, b, post, by rw [hrest]; rfl, ha2, hb⟩

theorem searchUD_pair (s : List Char) (h : searchUD s = true) :
    ∃ pre a b post, s = pre ++ a :: b :: post ∧ a.isUpper = true ∧ b.isDigit = true := by
  induction s with
  | nil => exact absurd h (by decide)
  | cons a rest ih =>
    rw [searchUD, Bool.or_eq_true] at h
    obtain h | h := h
    · exact matchUD_pair (a :: rest) h
    · obtain ⟨pre, a2, b, post, hrest, ha2, hb⟩ := ih h
      exact ⟨a :: pre, a2, b, post, by rw [hrest]; rfl, ha2, hb⟩

theorem pair_searchUD (pre : List Char) (a b : Char) (post : List Char)
    (ha : a.isUpper = true) (hb : b.isDigit = true) :
    searchUD (pre ++ a :: b :: post) = true := by
  induction pre with
  | nil => simp [searchUD, matchUD, headIsDigit, ha, hb]
  | cons p pre' ih => simp [searchUD, ih]

/-- Claim C4: `validate_course` accepts exactly the strings containing an
uppercase-letter run immediately followed by a digit run (containment,
not anchored), with the spec's concrete examples. -/
theorem validate_course_characterisation :
    (∀ s : List Char, validate_course s = true ↔ hasUpperDigitRun s) ∧
    validate_course ['C', 'S', '1', '0', '1'] = true ∧
    validate_course ['x', 'C', 'S', '1', '0', '1', 'y'] = true ∧
    validate_course ['1', '0', '1'] = false ∧
    validate_course [] = false ∧
    validate_course ['C', 'S'] = false := by
  refine ⟨?_, by decide, by decide, by decide, by decide, by decide⟩
  intro s
  constructor
  · intro h
    obtain ⟨pre, a, b, post, hs, ha, hb⟩ := searchUD_pair s h
    refine ⟨pre, [a], [b], post, by simp [hs], by simp, by simp, ?_, ?_⟩
    · intro c hc
      rw [List.mem_singleton] at hc
      rw [hc]
      exact ha
    · intro c hc
      rw [List.mem_singleton] at hc
      rw [hc]
      exact hb
  · rintro ⟨pre, u, d, post, hs, hu, hd, hau, had⟩
    rcases List.eq_nil_or_concat u with rfl | ⟨L, a, rfl⟩
    · exact absurd rfl hu
    · obtain ⟨b, t, rfl⟩ := List.exists_cons_of_ne_nil hd
      have ha : a.isUpper = true := hau a (by simp [List.concat_eq_append])
      have hb : b.isDigit = true := had b (List.mem_cons_self b t)
      have hrw : s = (pre ++ L) ++ a :: b :: (t ++ post) := by
        rw [hs]
        simp [List.concat_eq_append, List.append_assoc]
      show searchUD s = true
      rw [hrw]
      exact pair_searchUD (pre ++ L) a b (t ++ post) ha hb

/-! ### Resolver lemmas -/

theorem coursePatternMatch_iff (course name : List Char) :
    coursePatternMatch course name = true ↔
      ∃ w c rest, name = course ++ w :: c :: rest ∧ isRegexSpace w = true ∧ ¬ c = '\n' := by
  induction course generalizing name with
  | nil =>
    match name with
    | [] => simp [coursePatternMatch]
    | [w] => simp [coursePatternMatch]
    | w :: c :: rest =>
      simp only [coursePatternMatch, Bool.and_eq_true, Bool.not_eq_true', beq_eq_false_iff_ne,
        List.nil_append, List.cons.injEq]
      constructor
      · rintro ⟨h1, h2⟩
        exact ⟨w, c, rest, ⟨rfl, rfl, rfl⟩, h1, h2⟩
      · rintro ⟨w', c', rest', ⟨rfl, rfl, rfl⟩, h1, h2⟩
        exact ⟨h1, h2⟩
  | cons a as ih =>
    match name with
    | [] => simp [coursePatternMatch]
    | b :: bs =>
      rw [coursePatternMatch, Bool.and_eq_true, beq_iff_eq, ih]
      constructor
      · rintro ⟨rfl, w, c, rest, hbs, hw, hc⟩
        exact ⟨w, c, rest, by rw [List.cons_append, hbs], hw, hc⟩
      · rintro ⟨w, c, rest, hname, hw, hc⟩
        rw [List.cons_append] at hname
        injection hname with h1 h2
        exact ⟨h1.symm, w, c, rest, h2, hw, hc⟩

theorem coursePatternMatch_self (course : List Char) :
    coursePatternMatch course course = false := by
  by_contra h
  rw [Bool.not_eq_false] at h
  obtain ⟨w, c, rest, he, _, _⟩ := (coursePatternMatch_iff course course).mp h
  have hlen := congrArg List.length he
  simp [List.length_append] at hlen

theorem find_course_path_eq_find? (root : List FsEntry) (course : List Char) :
    find_course_path root course =
      List.find? (fun e => e.isDir && coursePatternMatch course e.name) root := by
  induction root with
  | nil => rfl
  | cons e rest ih =>
    cases hd : e.isDir <;> cases hm : coursePatternMatch course e.name <;>
      simp [find_course_path, List.find?_cons, hd, hm, ih]

/-- Claim C1 (amended): `find_course_path` scans the root listing in
order, skips non-directories, and returns the first directory whose base
name matches the pattern; and a name matches exactly when it starts with
the code, continues with one whitespace character, and then has at least
one further character whose first is not a newline.  The bare code
itself never matches. -/
theorem find_course_path_characterisation :
    ∀ (root : List FsEntry) (course : List Char),
      find_course_path root course =
        List.find? (fun e => e.isDir && coursePatternMatch course e.name) root ∧
      (∀ name, coursePatternMatch course name = true ↔
        ∃ w c rest, name = course ++ w :: c :: rest ∧ isRegexSpace w = true ∧ ¬ c = '\n') ∧
      coursePatternMatch course course = false := by
  intro root course
  exact ⟨find_course_path_eq_find? root course,
         fun name => coursePatternMatch_iff course name,
         coursePatternMatch_self course⟩

/-- Counterexample to claim C1 as stated: the directory name
`"CS101 \n"` starts with the code `"CS101"`, continues with at least one
whitespace character, and then has one further (arbitrary) character, so
under the claim's description the resolver should return it; but the
pattern's `.` does not match `'\n'`, and the scan finds nothing. -/
theorem find_course_path_newline_counterexample :
    (∃ w r, (['C', 'S', '1', '0', '1', ' ', '\n'] : List Char) =
        ['C', 'S', '1', '0', '1'] ++ w ++ r ∧ w ≠ [] ∧
        (∀ c ∈ w, isRegexSpace c = true) ∧ r ≠ []) ∧
    find_course_path [FsEntry.mk ['C', 'S', '1', '0', '1', ' ', '\n'] true []]
        ['C', 'S', '1', '0', '1'] = none := by
  exact ⟨⟨[' '], ['\n'], by decide, by decide, by decide, by decide⟩, by decide⟩

/-! ### Creator lemmas -/

/-- Claim C5: the note file is named `<date>.md` without a title and
`<date>-<sanitized title>.md` with one; when a file of that name already
exists the call reports `alreadyExisted` and leaves the directory (hence
all existing content) untouched, and otherwise it reports `created`,
adds exactly one empty file under that name, and leaves every other name
unchanged. -/
theorem make_new_note_characterisation :
    ∀ (dir : List (List Char × List Char)) (date : List Char) (title : Option (List Char)),
      noteFileName date none = date ++ ['.', 'm', 'd'] ∧
      (∀ t, noteFileName date (some t) =
        date ++ '-' :: (sanitize_file_name t ++ ['.', 'm', 'd'])) ∧
      ((fileLookup dir (noteFileName date title) ≠ none ∧
          make_new_note dir date title = (dir, Outcome.alreadyExisted)) ∨
       (fileLookup dir (noteFileName date title) = none ∧
          (make_new_note dir date title).2 = Outcome.created ∧
          ∀ n, fileLookup (make_new_note dir date title).1 n =
            if n = noteFileName date title then some [] else fileLookup dir n)) := by
  intro dir date title
  refine ⟨rfl, fun t => rfl, ?_⟩
  cases h : fileLookup dir (noteFileName date title) with
  | some c =>
    left
    refine ⟨by simp [h], ?_⟩
    simp [make_new_note, h]
  | none =>
    right
    refine ⟨rfl, by simp [make_new_note, h], ?_⟩
    intro n
    simp only [make_new_note, h]
    by_cases hn : n = noteFileName date title
    · subst hn
      rw [if_pos rfl]
      simp [fileLookup]
    · rw [if_neg hn]
      have hne : (noteFileName date title == n) = false :=
        beq_eq_false_iff_ne.mpr (fun e => hn e.symm)
      simp [fileLookup, hne]

/-- Claim C6: the folder target is exactly
`root / "<code> <sanitize(title)>"`; when an entry of any kind already
carries that exact name the call reports `alreadyExisted` with no
mutation, otherwise it adds exactly one new empty directory entry and
reports `created`; and an immediately repeated call reports
`alreadyExisted` and leaves the listing unchanged. -/
theorem make_new_folder_characterisation :
    ∀ (root : List FsEntry) (code title : List Char),
      folderName code title = code ++ ' ' :: sanitize_file_name title ∧
      ((hasEntry root (folderName code title) = true ∧
          make_new_folder root code title = (root, Outcome.alreadyExisted)) ∨
       (hasEntry root (folderName code title) = false ∧
          make_new_folder root code title =
            (FsEntry.mk (folderName code title) true [] :: root, Outcome.created))) ∧
      make_new_folder (make_new_folder root code title).1 code title =
        ((make_new_folder root code title).1, Outcome.alreadyExisted) := by
  intro root code title
  refine ⟨rfl, ?_, ?_⟩
  · cases h : hasEntry root (folderName code title)
    · right
      exact ⟨rfl, by simp [make_new_folder, h]⟩
    · left
      exact ⟨rfl, by simp [make_new_folder, h]⟩
  · cases h : hasEntry root (folderName code title)
    · have h1 : make_new_folder root code title =
          (FsEntry.mk (folderName code title) true [] :: root, Outcome.created) := by
        simp [make_new_folder, h]
      rw [h1]
      have h2 : hasEntry (FsEntry.mk (folderName code title) true [] :: root)
          (folderName code title) = true := by
        simp [hasEntry]
      simp [make_new_folder, h2]
    · have h1 : make_new_folder root code title = (root, Outcome.alreadyExisted) := by
        simp [make_new_folder, h]
      rw [h1]
      simp [make_new_folder, h]

/-! ### Dispatcher lemmas -/

/-- Claim C8: in the "new note" operation, a course code whose uppercased
form fails validation is rejected with `BadCourseCodeError` before
resolution: the root listing is returned untouched, and the outcome does
not depend on the root listing at all (no directory is scanned, nothing
is created). -/
theorem run_new_bad_code (root other : List FsEntry) (course : List Char)
    (title : Option (List Char)) (date : List Char)
    (h : validate_course (toUppercase course) = false) :
    run_new root course title date =
      (root, Except.error (NoterError.badCourseCodeError (toUppercase course))) ∧
    (run_new root course title date).2 = (run_new other course title date).2 := by
  have e1 : run_new root course title date =
      (root, Except.error (NoterError.badCourseCodeError (toUppercase course))) := by
    simp [run_new, h]
  have e2 : run_new other course title date =
      (other, Except.error (NoterError.badCourseCodeError (toUppercase course))) := by
    simp [run_new, h]
  exact ⟨e1, by rw [e1, e2]⟩

/-- Witness for C8 at a concrete invalid code `"101"` against a
non-empty root. -/
theorem run_new_bad_code_witness :
    validate_course (toUppercase ['1', '0', '1']) = false ∧
    run_new [FsEntry.mk ['C', 'S', '1', '0', '1', ' ', 'A'] true []] ['1', '0', '1'] none
        ['2', '0', '2', '4', '-', '0', '3', '-', '0', '5'] =
      ([FsEntry.mk ['C', 'S', '1', '0', '1', ' ', 'A'] true []],
       Except.error (NoterError.badCourseCodeError (toUppercase ['1', '0', '1']))) :=
  ⟨by decide, (run_new_bad_code _ [] _ none _ (by decide)).1⟩

/-- Claim C9: the "course" operation validates the uppercased code the
same way: a failing code is rejected with `BadCourseCodeError` and the
root listing is returned untouched, so `make_new_folder` is never
reached with an invalid code. -/
theorem run_course_bad_code (root : List FsEntry) (code title : List Char)
    (h : validate_course (toUppercase code) = false) :
    run_course root code title =
      (root, Except.error (NoterError.badCourseCodeError (toUppercase code))) := by
  simp [run_course, h]

/-- Witness for C9 at the concrete invalid code `"101"`. -/
theorem run_course_bad_code_witness :
    validate_course (toUppercase ['1', '0', '1']) = false ∧
    run_course [] ['1', '0', '1'] ['A'] =
      ([], Except.error (NoterError.badCourseCodeError (toUppercase ['1', '0', '1']))) :=
  ⟨by decide, run_course_bad_code [] _ ['A'] (by decide)⟩

/-! ### Create-then-resolve round trip -/

/-- Claim C10 (amended): for a code of uppercase letters followed by
digits and a title whose sanitization is non-empty and does not begin
with a newline, once `make_new_folder` reports `created` the resolver
finds a course directory for that code. -/
theorem create_then_resolve (root : List FsEntry) (code title : List Char)
    (_hshape : ∃ u d, code = u ++ d ∧ u ≠ [] ∧ d ≠ [] ∧
      (∀ c ∈ u, c.isUpper = true) ∧ (∀ c ∈ d, c.isDigit = true))
    (hsan : sanitize_file_name title ≠ [])
    (hnl : (sanitize_file_name title).head? ≠ some '\n')
    (hcreated : (make_new_folder root code title).2 = Outcome.created) :
    find_course_path (make_new_folder root code title).1 code ≠ none := by
  cases h : hasEntry root (folderName code title)
  · have h1 : (make_new_folder root code title).1 =
        FsEntry.mk (folderName code title) true [] :: root := by
      simp [make_new_folder, h]
    rw [h1]
    obtain ⟨c, t, ht⟩ := List.exists_cons_of_ne_nil hsan
    have hcn : ¬ c = '\n' := by
      intro e
      subst e
      apply hnl
      rw [ht]
      rfl
    have hm : coursePatternMatch code (folderName code title) = true := by
      rw [coursePatternMatch_iff]
      exact ⟨' ', c, t, by rw [folderName, ht], by decide, hcn⟩
    simp [find_course_path, hm]
  · have : (make_new_folder root code title).2 = Outcome.alreadyExisted := by
      simp [make_new_folder, h]
    rw [this] at hcreated
    exact absurd hcreated (by decide)

/-- Witness for the amended C10 on a concrete safe title. -/
theorem create_then_resolve_witness :
    sanitize_file_name ['A'] ≠ [] ∧
    (sanitize_file_name ['A']).head? ≠ some '\n' ∧
    (make_new_folder [] ['C', 'S', '1', '0', '1'] ['A']).2 = Outcome.created ∧
    find_course_path (make_new_folder [] ['C', 'S', '1', '0', '1'] ['A']).1
        ['C', 'S', '1', '0', '1'] ≠ none :=
  ⟨by decide, by decide, by decide,
   create_then_resolve [] _ _ ⟨['C', 'S'], ['1', '0', '1'], by decide⟩
     (by decide) (by decide) (by decide)⟩

/-- Counterexample to claim C10 as stated: the code `"CS101"` has the
required uppercase-then-digits shape and the title `"\nA"` sanitizes to
the non-empty string `"\nA"`, the folder is created, yet resolution
still fails, because the created name `"CS101 \nA"` puts a newline right
after the single whitespace the pattern consumes. -/
theorem create_then_resolve_counterexample :
    (['C', 'S', '1', '0', '1'] : List Char) = ['C', 'S'] ++ ['1', '0', '1'] ∧
    (∀ c ∈ (['C', 'S'] : List Char), c.isUpper = true) ∧
    (∀ c ∈ (['1', '0', '1'] : List Char), c.isDigit = true) ∧
    sanitize_file_name ['\n', 'A'] ≠ [] ∧
    (make_new_folder [] ['C', 'S', '1', '0', '1'] ['\n', 'A']).2 = Outcome.created ∧
    find_course_path (make_new_folder [] ['C', 'S', '1', '0', '1'] ['\n', 'A']).1
        ['C', 'S', '1', '0', '1'] = none := by
  exact ⟨by decide, by decide, by decide, by decide, by decide, by decide⟩

/-! ### Validator / pattern coupling -/

theorem alnum_not_meta (c : Char) (h : (c.isAlpha || c.isDigit) = true) :
    is_meta_character c = false := by
  by_contra hm
  rw [Bool.not_eq_false, is_meta_character] at hm
  simp only [Bool.or_eq_true, beq_iff_eq] at hm
  repeat' rcases hm with hm | rfl
  all_goals exact absurd h (by decide)

/-- Claim C2 (amended): a code made only of letters and digits contains
no pattern metacharacter, so interpolating such a code into the
resolver's pattern keeps it literal; but the validator does not restrict
accepted codes to letters and digits — there are validated codes
containing a pattern metacharacter, so validation alone does not ensure
safe interpolation. -/
theorem validator_pattern_coupling :
    (∀ s : List Char, (∀ c ∈ s, (c.isAlpha || c.isDigit) = true) →
      ∀ c ∈ s, is_meta_character c = false) ∧
    (∃ s : List Char, validate_course s = true ∧ ∃ c ∈ s, is_meta_character c = true) := by
  constructor
  · intro s h c hc
    exact alnum_not_meta c (h c hc)
  · exact ⟨['A', '1', '('], by decide, '(', by decide, by decide⟩

/-- Counterexample to claim C2 as stated: `"CS101("` passes validation
yet contains the pattern metacharacter `'('`, so a validated code is not
restricted to letters and digits. -/
theorem validate_course_meta_counterexample :
    validate_course ['C', 'S', '1', '0', '1', '('] = true ∧
    '(' ∈ (['C', 'S', '1', '0', '1', '('] : List Char) ∧
    is_meta_character '(' = true ∧
    ¬ (∀ c ∈ (['C', 'S', '1', '0', '1', '('] : List Char), (c.isAlpha || c.isDigit) = true) := by
  exact ⟨by decide, by decide, by decide, by decide⟩

end Noter
